import Mathlib

/-!
Shallow embedding of `scripts/validate_fastmcp.py` from the
`community-skills/fastmcp-builder` tree: a Python AST subset covering the
node shapes the validator inspects, the breadth-first `ast.walk`
traversal, every check method of `FastMCPValidator`, and the overall
verdict and exit-code computation.  Theorems below settle the spec
claims against these definitions.
-/

namespace FastMCP

/-- Python expression nodes, restricted to the shapes the validator
inspects.  `constStr` models `ast.Constant` holding a `str`; `constOther`
abstracts every other constant.  `compare` keeps the left operand and the
comparators; the comparison-operator objects (`ast.cmpop`, never inspected
by the validator) are not modelled.  `call` keeps positional arguments
only (the `keywords` field is never inspected).  `awaitExpr` models
`ast.Await`. -/
inductive Expr where
  | name (id : String)
  | attrAccess (value : Expr) (attr : String)
  | call (func : Expr) (args : List Expr)
  | constStr (s : String)
  | constOther
  | compare (left : Expr) (comparators : List Expr)
  | subscript (value : Expr) (slice : Expr)
  | awaitExpr (value : Expr)

/-- A formal parameter (`ast.arg`): its name and its optional type
annotation (the `annotation` field, here called `ann`). -/
structure Arg where
  arg : String
  ann : Option Expr

/-- Python statement nodes, restricted to the shapes the validator
inspects.  `functionDef` and `asyncFunctionDef` are distinct node kinds,
exactly as `ast.FunctionDef` and `ast.AsyncFunctionDef` are distinct,
unrelated classes in the `ast` module.  Line numbers are kept on the
node kinds whose `lineno` the validator reads. -/
inductive Stmt where
  | functionDef (lineno : Nat) (name : String) (args : List Arg)
      (body : List Stmt) (decorators : List Expr) (returns : Option Expr)
  | asyncFunctionDef (lineno : Nat) (name : String) (args : List Arg)
      (body : List Stmt) (decorators : List Expr) (returns : Option Expr)
  | assign (lineno : Nat) (targets : List Expr) (value : Expr)
  | ifStmt (test : Expr) (body : List Stmt) (orelse : List Stmt)
  | importFrom (lineno : Nat) (module : Option String) (names : List String)
  | exprStmt (value : Expr)
  | ret (value : Option Expr)
  | pass

/-- The heterogeneous node type yielded by the `ast.walk` traversal:
statements, expressions, the `ast.arguments` container of a function, and
individual `ast.arg` nodes. -/
inductive Node where
  | ofStmt (s : Stmt)
  | ofExpr (e : Expr)
  | ofArgs (args : List Arg)
  | ofArg (a : Arg)

/-- Children of an expression node, in `ast.iter_child_nodes` field
order. -/
def exprChildren : Expr → List Node
  | .name _ => []
  | .attrAccess v _ => [.ofExpr v]
  | .call f args => .ofExpr f :: args.map .ofExpr
  | .constStr _ => []
  | .constOther => []
  | .compare l cs => .ofExpr l :: cs.map .ofExpr
  | .subscript v s => [.ofExpr v, .ofExpr s]
  | .awaitExpr v => [.ofExpr v]

/-- Children of a statement node, in `ast.iter_child_nodes` field order:
for function definitions the `arguments` node comes first, then the body,
the decorator list, and the return annotation. -/
def stmtChildren : Stmt → List Node
  | .functionDef _ _ args body dec rets =>
      .ofArgs args :: (body.map .ofStmt ++ dec.map .ofExpr ++ (rets.map .ofExpr).toList)
  | .asyncFunctionDef _ _ args body dec rets =>
      .ofArgs args :: (body.map .ofStmt ++ dec.map .ofExpr ++ (rets.map .ofExpr).toList)
  | .assign _ targets value => targets.map .ofExpr ++ [.ofExpr value]
  | .ifStmt t b o => .ofExpr t :: (b.map .ofStmt ++ o.map .ofStmt)
  | .importFrom _ _ _ => []
  | .exprStmt v => [.ofExpr v]
  | .ret v => (v.map .ofExpr).toList
  | .pass => []

/-- Children of a walk node. -/
def children : Node → List Node
  | .ofStmt s => stmtChildren s
  | .ofExpr e => exprChildren e
  | .ofArgs args => args.map .ofArg
  | .ofArg a => (a.ann.map .ofExpr).toList

mutual
/-- Structural size of an expression (termination measure for the
traversal). -/
def exprSize : Expr → Nat
  | .name _ => 1
  | .attrAccess v _ => 1 + exprSize v
  | .call f args => 1 + exprSize f + exprListSize args
  | .constStr _ => 1
  | .constOther => 1
  | .compare l cs => 1 + exprSize l + exprListSize cs
  | .subscript v s => 1 + exprSize v + exprSize s
  | .awaitExpr v => 1 + exprSize v
/-- Total size of a list of expressions. -/
def exprListSize : List Expr → Nat
  | [] => 0
  | e :: es => exprSize e + exprListSize es
end

/-- Size of an optional expression. -/
def optExprSize : Option Expr → Nat
  | none => 0
  | some e => exprSize e

/-- Size of a parameter node (the node itself plus its annotation). -/
def argSize (a : Arg) : Nat := 1 + optExprSize a.ann

/-- Total size of a parameter list. -/
def argListSize : List Arg → Nat
  | [] => 0
  | a :: rest => argSize a + argListSize rest

mutual
/-- Structural size of a statement; function definitions count 2 for the
statement node itself plus its `arguments` container node. -/
def stmtSize : Stmt → Nat
  | .functionDef _ _ args body dec rets =>
      2 + argListSize args + stmtListSize body + exprListSize dec + optExprSize rets
  | .asyncFunctionDef _ _ args body dec rets =>
      2 + argListSize args + stmtListSize body + exprListSize dec + optExprSize rets
  | .assign _ targets value => 1 + exprListSize targets + exprSize value
  | .ifStmt t b o => 1 + exprSize t + stmtListSize b + stmtListSize o
  | .importFrom _ _ _ => 1
  | .exprStmt v => 1 + exprSize v
  | .ret v => 1 + optExprSize v
  | .pass => 1
/-- Total size of a statement list. -/
def stmtListSize : List Stmt → Nat
  | [] => 0
  | s :: rest => stmtSize s + stmtListSize rest
end

/-- Size of a walk node. -/
def nodeSize : Node → Nat
  | .ofStmt s => stmtSize s
  | .ofExpr e => exprSize e
  | .ofArgs args => 1 + argListSize args
  | .ofArg a => argSize a

/-- Total size of a list of walk nodes. -/
def nodeListSize : List Node → Nat
  | [] => 0
  | n :: rest => nodeSize n + nodeListSize rest

theorem nodeListSize_append (l1 l2 : List Node) :
    nodeListSize (l1 ++ l2) = nodeListSize l1 + nodeListSize l2 := by
  induction l1 with
  | nil => simp [nodeListSize]
  | cons n rest ih => simp [nodeListSize, ih]; omega

theorem nodeListSize_map_ofStmt (l : List Stmt) :
    nodeListSize (l.map Node.ofStmt) = stmtListSize l := by
  induction l with
  | nil => simp [nodeListSize, stmtListSize]
  | cons s rest ih => simp [nodeListSize, stmtListSize, ih, nodeSize]

theorem nodeListSize_map_ofExpr (l : List Expr) :
    nodeListSize (l.map Node.ofExpr) = exprListSize l := by
  induction l with
  | nil => simp [nodeListSize, exprListSize]
  | cons e rest ih => simp [nodeListSize, exprListSize, ih, nodeSize]

theorem nodeListSize_map_ofArg (l : List Arg) :
    nodeListSize (l.map Node.ofArg) = argListSize l := by
  induction l with
  | nil => simp [nodeListSize, argListSize]
  | cons a rest ih => simp [nodeListSize, argListSize, ih, nodeSize]

theorem nodeListSize_opt (o : Option Expr) :
    nodeListSize ((o.map Node.ofExpr).toList) = optExprSize o := by
  cases o <;> simp [nodeListSize, optExprSize, nodeSize]

theorem children_size_lt (n : Node) : nodeListSize (children n) < nodeSize n := by
  cases n with
  | ofStmt s =>
    cases s <;>
      simp [children, stmtChildren, nodeSize, stmtSize, nodeListSize,
        nodeListSize_append, nodeListSize_map_ofStmt, nodeListSize_map_ofExpr,
        nodeListSize_opt, argListSize] <;> omega
  | ofExpr e =>
    cases e <;>
      simp [children, exprChildren, nodeSize, exprSize, nodeListSize,
        nodeListSize_append, nodeListSize_map_ofExpr]
  | ofArgs args =>
    simp [children, nodeSize, nodeListSize_map_ofArg]
  | ofArg a =>
    simp [children, nodeSize, argSize, nodeListSize_opt]

/-- Breadth-first traversal worklist, mirroring `ast.walk`: pop the front
node, yield it, and push its children at the back of the queue. -/
def walkAux : List Node → List Node
  | [] => []
  | n :: todo => n :: walkAux (todo ++ children n)
termination_by q => nodeListSize q
decreasing_by
  have h := children_size_lt n
  simp only [nodeListSize_append, nodeListSize]
  omega

/-- Models `ast.walk` over a parsed module: breadth-first over all statements of
the module body and their descendants.  (The `ast.Module` node itself,
which matches no check, is not yielded.) -/
def walk (m : List Stmt) : List Node := walkAux (m.map Node.ofStmt)

/-- Fuel-driven evaluator for the traversal, used to compute `walkAux`
inside kernel-checked proofs; `walkAux_eq_fuel` shows it agrees with the
traversal whenever the fuel covers the total size of the queue. -/
def walkAuxFuel : Nat → List Node → List Node
  | _, [] => []
  | 0, q => q
  | fuel + 1, n :: todo => n :: walkAuxFuel fuel (todo ++ children n)

theorem nodeSize_pos (n : Node) : 0 < nodeSize n := by
  cases n with
  | ofStmt s => cases s <;> simp [nodeSize, stmtSize]
  | ofExpr e => cases e <;> simp [nodeSize, exprSize]
  | ofArgs args => simp [nodeSize]
  | ofArg a => simp [nodeSize, argSize]

theorem walkAux_eq_fuel :
    ∀ (fuel : Nat) (q : List Node), nodeListSize q ≤ fuel → walkAux q = walkAuxFuel fuel q := by
  intro fuel
  induction fuel with
  | zero =>
    intro q hq
    cases q with
    | nil => simp [walkAux, walkAuxFuel]
    | cons n todo =>
      exfalso
      have h1 := nodeSize_pos n
      simp [nodeListSize] at hq
      omega
  | succ fuel ih =>
    intro q hq
    cases q with
    | nil => simp [walkAux, walkAuxFuel]
    | cons n todo =>
      have h1 := children_size_lt n
      have h2 : nodeListSize (todo ++ children n) ≤ fuel := by
        rw [nodeListSize_append]
        simp [nodeListSize] at hq
        omega
      rw [walkAux, walkAuxFuel, ih _ h2]

/-- Computable form of `walk` for concrete inputs. -/
def walkF (m : List Stmt) : List Node :=
  walkAuxFuel (nodeListSize (m.map Node.ofStmt)) (m.map Node.ofStmt)

theorem walk_eq_walkF (m : List Stmt) : walk m = walkF m :=
  walkAux_eq_fuel _ _ (Nat.le_refl _)

mutual
/-- Models `ast.unparse`, restricted to the modelled expression shapes.  String
constants are rendered with single quotes as CPython does; since
comparison operators are not modelled, a comparison is rendered with
`==` between its operands (the validator never unparses a comparison). -/
def unparse : Expr → String
  | .name id => id
  | .attrAccess v a => unparse v ++ "." ++ a
  | .call f args => unparse f ++ "(" ++ unparseList args ++ ")"
  | .constStr s => "\x27" ++ s ++ "\x27"
  | .constOther => "None"
  | .compare l cs => unparse l ++ unparseCmp cs
  | .subscript v s => unparse v ++ "[" ++ unparse s ++ "]"
  | .awaitExpr v => "await " ++ unparse v
/-- Comma-separated rendering of call arguments. -/
def unparseList : List Expr → String
  | [] => ""
  | [e] => unparse e
  | e :: e2 :: es => unparse e ++ ", " ++ unparseList (e2 :: es)
/-- Rendering of the comparator chain of a comparison. -/
def unparseCmp : List Expr → String
  | [] => ""
  | c :: cs => " == " ++ unparse c ++ unparseCmp cs
end

/-- Models `FastMCPValidator.get_decorator_name`: a bare name resolves to itself,
attribute access to `<unparsed value>.<attr>`, a decorator written as a
call to the resolution of its callee; anything else to the empty
string. -/
def get_decorator_name : Expr → String
  | .name id => id
  | .attrAccess v a => unparse v ++ "." ++ a
  | .call f _ => get_decorator_name f
  | _ => ""

/-- Infix test on character lists: the needle is a prefix of some suffix
of the haystack. -/
def charsContain (needle : List Char) : List Char → Bool
  | [] => needle.isEmpty
  | h :: t => needle.isPrefixOf (h :: t) || charsContain needle t

/-- Python substring containment (the `in` operator on strings), used for
the `"Context" in type_hint` test. -/
def strContains (hay sub : String) : Bool := charsContain sub.toList hay.toList

/-- The `ValidationIssue` record of the script: severity is one of
`"error"`, `"warning"`, `"info"`; `line` is `none` for file-level
findings. -/
structure ValidationIssue where
  severity : String
  line : Option Nat
  message : String
  suggestion : Option String
deriving DecidableEq

/-- Models `add_error`: the single error finding it appends. -/
def add_error (line : Option Nat) (message : String) (suggestion : Option String) :
    List ValidationIssue :=
  [⟨"error", line, message, suggestion⟩]

/-- Models `add_warning`: the single warning finding it appends. -/
def add_warning (line : Option Nat) (message : String) (suggestion : Option String) :
    List ValidationIssue :=
  [⟨"warning", line, message, suggestion⟩]

/-- Models `add_info`: appends its info finding only when strict mode is on. -/
def add_info (strict : Bool) (line : Option Nat) (message : String)
    (suggestion : Option String) : List ValidationIssue :=
  if strict then [⟨"info", line, message, suggestion⟩] else []

/-- View of an `ast.FunctionDef` node: the fields the checks read. -/
structure FuncData where
  lineno : Nat
  name : String
  args : List Arg
  body : List Stmt
  decorators : List Expr
  returns : Option Expr

/-- The statement node a `FuncData` view was extracted from. -/
def fdStmt (fd : FuncData) : Stmt :=
  .functionDef fd.lineno fd.name fd.args fd.body fd.decorators fd.returns

/-- The `isinstance(node, ast.FunctionDef)` filter used by the function
checks: matches synchronous function definitions only, never
`ast.AsyncFunctionDef` nodes (a distinct class in the `ast` module). -/
def funcDefOf : Node → Option FuncData
  | .ofStmt (.functionDef l n a b d r) => some ⟨l, n, a, b, d, r⟩
  | _ => none

/-- All `ast.FunctionDef` nodes met by `ast.walk` over the module, in
traversal order. -/
def functionDefsIn (m : List Stmt) : List FuncData := (walk m).filterMap funcDefOf

/-- Models `ast.get_docstring` without its `inspect.cleandoc` normalization: the
raw string of the first body statement when that is an expression
statement holding a string constant.  The validator only tests
truthiness of the cleaned docstring, which `docTruthy` below captures. -/
def get_docstring : List Stmt → Option String
  | .exprStmt (.constStr s) :: _ => some s
  | _ => none

/-- Truthiness of a docstring after `inspect.cleandoc`: the cleaned text
is non-empty exactly when the raw text holds some non-whitespace
character. -/
def docTruthy (s : String) : Bool :=
  s.toList.any fun c =>
    !(c == ' ' || c == '\t' || c == '\n' || c == '\r' || c == '\x0b' || c == '\x0c')

/-- Models `check_tool_function`: warn when the tool has no (truthy)
docstring. -/
def check_tool_function (fd : FuncData) : List ValidationIssue :=
  if !docTruthy ((get_docstring fd.body).getD "") then
    add_warning (some fd.lineno) ("Tool \x27" ++ fd.name ++ "\x27 missing docstring")
      (some "Add comprehensive docstring with Args and Returns sections")
  else []

/-- Loop body of `check_resource_function` over one decorator: when the
decorator is a call whose callee is an attribute access named `resource`,
error when the call has no positional arguments. -/
def resourceDecoratorIssues (fd : FuncData) (d : Expr) : List ValidationIssue :=
  match d with
  | .call (.attrAccess _ attr) args =>
      if attr == "resource" then
        if args.isEmpty then
          add_error (some fd.lineno) ("Resource \x27" ++ fd.name ++ "\x27 missing URI")
            (some "Use: @mcp.resource(\"resource://path\")")
        else []
      else []
  | _ => []

/-- Models `check_resource_function`: the decorator loop. -/
def check_resource_function (fd : FuncData) : List ValidationIssue :=
  fd.decorators.flatMap (resourceDecoratorIssues fd)

/-- Models `check_prompt_function`: warn when an explicit return annotation
unparses to something outside the allow-list. -/
def check_prompt_function (fd : FuncData) : List ValidationIssue :=
  match fd.returns with
  | some r =>
      if unparse r != "str" && unparse r != "list[PromptMessage]" then
        add_warning (some fd.lineno)
          ("Prompt \x27" ++ fd.name ++ "\x27 has unusual return type: " ++ unparse r)
          (some "Prompts typically return str or list[PromptMessage]")
      else []
  | none => []

/-- Models `check_imports`: warn per `from fastmcp import ...` statement
that does not import the `FastMCP` name; error when no import from the
`fastmcp` module exists at all. -/
def check_imports (m : List Stmt) : List ValidationIssue :=
  let hits := (walk m).filterMap fun n =>
    match n with
    | .ofStmt (.importFrom l mod names) => some (l, mod, names)
    | _ => none
  let warnings := hits.flatMap fun h =>
    if h.2.1 == some "fastmcp" then
      if h.2.2.contains "FastMCP" then []
      else add_warning (some h.1) "FastMCP class not imported from fastmcp"
        (some "Add: from fastmcp import FastMCP")
    else []
  let has_fastmcp_import := hits.any fun h => h.2.1 == some "fastmcp"
  warnings ++
    (if has_fastmcp_import then []
     else add_error none "Missing FastMCP import" (some "Add: from fastmcp import FastMCP"))

/-- Models `check_server_init`: error per assignment of a zero-argument
`FastMCP(...)` call; error when no assignment of a `FastMCP(...)` call
exists anywhere. -/
def check_server_init (m : List Stmt) : List ValidationIssue :=
  let inits := (walk m).filterMap fun n =>
    match n with
    | .ofStmt (.assign l _ (.call (.name f) args)) =>
        if f == "FastMCP" then some (l, args) else none
    | _ => none
  let errs := inits.flatMap fun i =>
    if i.2.isEmpty then
      add_error (some i.1) "FastMCP initialized without server name"
        (some "Use: mcp = FastMCP(\"server-name\")")
    else []
  errs ++
    (if inits.isEmpty then
      add_error none "No FastMCP server initialization found"
        (some "Add: mcp = FastMCP(\"server-name\")")
     else [])

/-- Models `check_decorators`: per synchronous function definition, resolve the
decorator names and, on membership of the exact strings `mcp.tool`,
`mcp.resource`, `mcp.prompt` in that list, count the category and run the
per-category sub-check; then warn when all three counts are zero, or emit
the strict-mode-only info summary otherwise. -/
def check_decorators (strict : Bool) (m : List Stmt) : List ValidationIssue :=
  let fds := functionDefsIn m
  let perFunction := fds.flatMap fun fd =>
    let decorators := fd.decorators.map get_decorator_name
    (if decorators.contains "mcp.tool" then check_tool_function fd else [])
      ++ (if decorators.contains "mcp.resource" then check_resource_function fd else [])
      ++ (if decorators.contains "mcp.prompt" then check_prompt_function fd else [])
  let tool_count := fds.countP fun fd =>
    (fd.decorators.map get_decorator_name).contains "mcp.tool"
  let resource_count := fds.countP fun fd =>
    (fd.decorators.map get_decorator_name).contains "mcp.resource"
  let prompt_count := fds.countP fun fd =>
    (fd.decorators.map get_decorator_name).contains "mcp.prompt"
  perFunction ++
    (if tool_count == 0 && resource_count == 0 && prompt_count == 0 then
      add_warning none "No tools, resources, or prompts defined"
        (some "Add @mcp.tool(), @mcp.resource(), or @mcp.prompt() decorators")
     else
      add_info strict none
        ("Found: " ++ toString tool_count ++ " tools, " ++ toString resource_count ++
          " resources, " ++ toString prompt_count ++ " prompts") none)

/-- Python `str.startswith`, on the character lists of the strings. -/
def strStartsWith (s pre : String) : Bool := pre.toList.isPrefixOf s.toList

/-- The `any(d.startswith("mcp.") for d in decorators)` guard shared by
the type-hint, async and context checks. -/
def hasMcpDecorator (fd : FuncData) : Bool :=
  (fd.decorators.map get_decorator_name).any fun d => strStartsWith d "mcp."

/-- Models `check_type_hints`: restricted to decorated functions bearing an
`mcp.`-prefixed decorator name; warn per non-self parameter without an
annotation, and warn once when the return annotation is missing. -/
def check_type_hints (m : List Stmt) : List ValidationIssue :=
  (functionDefsIn m).flatMap fun fd =>
    if fd.decorators.isEmpty then []
    else if !hasMcpDecorator fd then []
    else
      (fd.args.flatMap fun a =>
        if a.arg == "self" then []
        else match a.ann with
          | none => add_warning (some fd.lineno)
              ("Parameter \x27" ++ a.arg ++ "\x27 in \x27" ++ fd.name ++ "\x27 missing type hint")
              (some ("Add type hint: " ++ a.arg ++ ": str"))
          | some _ => [])
      ++ (match fd.returns with
          | none => add_warning (some fd.lineno)
              ("Function \x27" ++ fd.name ++ "\x27 missing return type hint")
              (some "Add return type hint: -> str")
          | some _ => [])

/-- Models `FastMCPValidator.has_await`: walk the whole subtree of the function
node and report whether any `ast.Await` node occurs. -/
def has_await (fd : FuncData) : Bool :=
  (walkAux [Node.ofStmt (fdStmt fd)]).any fun n =>
    match n with
    | .ofExpr (.awaitExpr _) => true
    | _ => false

/-- Computable form of `has_await` for concrete inputs. -/
def has_awaitF (fd : FuncData) : Bool :=
  (walkAuxFuel (nodeSize (Node.ofStmt (fdStmt fd))) [Node.ofStmt (fdStmt fd)]).any fun n =>
    match n with
    | .ofExpr (.awaitExpr _) => true
    | _ => false

theorem has_await_eq_has_awaitF (fd : FuncData) : has_await fd = has_awaitF fd := by
  rw [has_await, has_awaitF,
    walkAux_eq_fuel (nodeSize (Node.ofStmt (fdStmt fd))) [Node.ofStmt (fdStmt fd)]
      (by simp [nodeListSize])]

/-- Models `check_async_patterns`: restricted to functions bearing an
`mcp.`-prefixed decorator name.  The loop only ever visits
`ast.FunctionDef` nodes, so the `isinstance(node, ast.AsyncFunctionDef)`
test of the source is `false` here; error when the subtree contains an
await expression. -/
def check_async_patterns (m : List Stmt) : List ValidationIssue :=
  (functionDefsIn m).flatMap fun fd =>
    if !hasMcpDecorator fd then []
    else
      let is_async := false
      if has_await fd && !is_async then
        add_error (some fd.lineno)
          ("Function \x27" ++ fd.name ++ "\x27 uses await but is not async")
          (some ("Change to: async def " ++ fd.name ++ "(...)"))
      else []

/-- The `has_context_param` flag of `check_context_usage`: some parameter
is named exactly `ctx` or `context`. -/
def hasContextParam (fd : FuncData) : Bool :=
  fd.args.any fun a => a.arg == "ctx" || a.arg == "context"

/-- The `context_has_type_hint` flag of `check_context_usage`: some
`ctx`/`context` parameter carries an annotation whose rendering contains
the substring `Context`. -/
def contextHasTypeHint (fd : FuncData) : Bool :=
  fd.args.any fun a =>
    (a.arg == "ctx" || a.arg == "context") &&
      (match a.ann with
       | some ann => strContains (unparse ann) "Context"
       | none => false)

/-- Models `check_context_usage`: restricted to functions bearing an
`mcp.`-prefixed decorator name; error when a context parameter exists but
no context parameter has a `Context`-mentioning annotation, and warn when
a context parameter exists (the visited node is an `ast.FunctionDef`,
hence never asynchronous). -/
def check_context_usage (m : List Stmt) : List ValidationIssue :=
  (functionDefsIn m).flatMap fun fd =>
    if !hasMcpDecorator fd then []
    else
      (if hasContextParam fd && !contextHasTypeHint fd then
        add_error (some fd.lineno)
          ("Context parameter in \x27" ++ fd.name ++ "\x27 missing type hint")
          (some "Add type hint: ctx: Context")
       else [])
      ++ (if hasContextParam fd then
            add_warning (some fd.lineno)
              ("Function \x27" ++ fd.name ++ "\x27 has Context parameter but is not async")
              (some "Context methods are async - make function async")
          else [])

/-- The main-block test of `check_best_practices`: an `ast.If`, anywhere
in the walk, whose test is a comparison with the bare name `__name__` on
the left; the compared value is not examined. -/
def isMainBlockIf : Node → Bool
  | .ofStmt (.ifStmt (.compare (.name "__name__") _) _ _) => true
  | _ => false

/-- Models `check_best_practices`: info (strict mode only) when no main-block
conditional exists anywhere in the tree. -/
def check_best_practices (strict : Bool) (m : List Stmt) : List ValidationIssue :=
  if !((walk m).any isMainBlockIf) then
    add_info strict none "Missing if __name__ == \x27__main__\x27 block"
      (some "Add: if __name__ == \x27__main__\x27: mcp.run()")
  else []

/-- A structured syntax error as reported by `ast.parse`. -/
structure SyntaxErr where
  lineno : Nat
  msg : String
deriving DecidableEq

/-- The seven check calls of `FastMCPValidator.validate`, in source
order, with their findings concatenated in emission order. -/
def runAllChecks (strict : Bool) (m : List Stmt) : List ValidationIssue :=
  check_imports m ++ check_server_init m ++ check_decorators strict m ++
    check_type_hints m ++ check_async_patterns m ++ check_context_usage m ++
      check_best_practices strict m

/-- Models `FastMCPValidator.validate` from the parse stage on: its input is the
outcome of `ast.parse` (the file-existence and read steps are I/O outside
this embedding; both also add one error finding and return failure).  On
a syntax error, exactly one error finding carrying the parser line and
message is recorded and no check runs; otherwise all checks run and the
verdict is the absence of error-severity findings. -/
def validate (strict : Bool) (input : Except SyntaxErr (List Stmt)) :
    Bool × List ValidationIssue :=
  match input with
  | .error e => (false, add_error (some e.lineno) ("Python syntax error: " ++ e.msg) none)
  | .ok tree =>
      let issues := runAllChecks strict tree
      let has_errors := issues.any fun i => i.severity == "error"
      (!has_errors, issues)

/-- Models `main`: `sys.exit(0 if success else 1)`. -/
def exitCode (strict : Bool) (input : Except SyntaxErr (List Stmt)) : Nat :=
  if (validate strict input).1 then 0 else 1

/-- The straight-line sequencing of rule invocations in
`FastMCPValidator.validate` (lines 74 to 80 of the script): each entry is
the outcome of one rule, an exception being modelled as `Except.error`
naming the rule.  The source wraps none of the calls in a handler, so an
exception propagates immediately and the remaining rules never run. -/
def run_checks_seq :
    List (Except String (List ValidationIssue)) → Except String (List ValidationIssue)
  | [] => .ok []
  | r :: rs =>
      match r with
      | .error e => .error e
      | .ok issues =>
          match run_checks_seq rs with
          | .error e => .error e
          | .ok rest => .ok (issues ++ rest)

/-- The outcomes of the seven concrete checks: every one is a total
function of the tree, so none can fail. -/
def allCheckResults (strict : Bool) (m : List Stmt) :
    List (Except String (List ValidationIssue)) :=
  [Except.ok (check_imports m), Except.ok (check_server_init m),
   Except.ok (check_decorators strict m), Except.ok (check_type_hints m),
   Except.ok (check_async_patterns m), Except.ok (check_context_usage m),
   Except.ok (check_best_practices strict m)]

/-- Number of error-severity findings in a finding list. -/
def count_errors (issues : List ValidationIssue) : Nat :=
  issues.countP fun i => i.severity == "error"

theorem not_any_eq_countP_zero (p : ValidationIssue → Bool) (l : List ValidationIssue) :
    (!l.any p) = (l.countP p == 0) := by
  induction l with
  | nil => simp
  | cons a t ih => cases h : p a <;> simp [List.any_cons, List.countP_cons, h, ih]

/-- C1: for every parse outcome and strict flag, the overall success
verdict equals the predicate that the number of error-severity findings
is exactly zero, and the exit code is 0 exactly on success and 1
otherwise; warning- and info-severity findings never change the verdict
(the empty finding set included, where the count is zero and the verdict
is success). -/
theorem c1_verdict_equals_zero_error_count (strict : Bool)
    (input : Except SyntaxErr (List Stmt)) :
    (validate strict input).1 = (count_errors (validate strict input).2 == 0) ∧
    exitCode strict input = if count_errors (validate strict input).2 == 0 then 0 else 1 := by
  have h : (validate strict input).1 = (count_errors (validate strict input).2 == 0) := by
    cases input with
    | error e => simp [validate, count_errors, add_error, List.countP_cons]
    | ok m =>
        simp only [validate, count_errors]
        exact not_any_eq_countP_zero _ _
  exact ⟨h, by rw [exitCode, h]⟩

/-- C2: for every input whose text fails to parse, the run produces
exactly one finding, of error severity, carrying the parser-reported line
and message; no rule executes (the finding list is exactly that
singleton), and the verdict is failure with exit code 1. -/
theorem c2_parser_gate (strict : Bool) (e : SyntaxErr) :
    validate strict (Except.error e) =
      (false, [⟨"error", some e.lineno, "Python syntax error: " ++ e.msg, none⟩]) ∧
    exitCode strict (Except.error e) = 1 := ⟨rfl, rfl⟩

/-- The finding a later rule would contribute in the C4 counterexample. -/
def laterRuleIssue : ValidationIssue := ⟨"warning", none, "finding from a later rule", none⟩

/-- C4 counterexample: feeding the straight-line rule sequencing of
`validate` a middle rule that fails makes the whole run abort with that
exception; no converted error finding is produced and the finding of the
later rule never appears, contradicting the claimed catch-and-continue
behavior. -/
theorem c4_counterexample :
    run_checks_seq
        [Except.ok [], Except.error "check_server_init", Except.ok [laterRuleIssue]] =
      Except.error "check_server_init" := rfl

/-- C4 amended: the rule engine has no exception boundary.  When every
rule succeeds (as all seven concrete checks, being total functions, do)
the sequential composition returns exactly the findings `validate`
collects; and whenever any rule fails, the exception propagates
immediately - the run yields no finding list at all and the rules after
the failing one never contribute. -/
theorem c4_no_engine_boundary :
    (∀ (strict : Bool) (m : List Stmt),
      run_checks_seq (allCheckResults strict m) =
        Except.ok (validate strict (Except.ok m)).2) ∧
    (∀ (pre : List (List ValidationIssue)) (e : String)
        (post : List (Except String (List ValidationIssue))),
      run_checks_seq (pre.map Except.ok ++ Except.error e :: post) = Except.error e) := by
  constructor
  · intro strict m
    simp [allCheckResults, run_checks_seq, validate, runAllChecks]
  · intro pre e post
    induction pre with
    | nil => simp [run_checks_seq]
    | cons x rest ih => simp [run_checks_seq, ih]

/-- The Scenario B input: a file importing `FastMCP` from `fastmcp`,
assigning a `FastMCP` server constructed with a name argument, defining
exactly one asynchronous handler (decorated `@mcp.tool()`, every
parameter annotated, with a docstring and a return annotation),
containing an entry-point guard, and containing no await outside an
async function. -/
def scenarioB : List Stmt :=
  [ .importFrom 1 (some "fastmcp") ["FastMCP"],
    .assign 3 [.name "mcp"] (.call (.name "FastMCP") [.constStr "demo-server"]),
    .asyncFunctionDef 5 "greet" [⟨"name", some (.name "str")⟩]
      [.exprStmt (.constStr "Greet a user."), .ret (some (.name "name"))]
      [.call (.attrAccess (.name "mcp") "tool") []]
      (some (.name "str")),
    .ifStmt (.compare (.name "__name__") [.constStr "__main__"])
      [.exprStmt (.call (.attrAccess (.name "mcp") "run") [])] [] ]

/-- C3: evaluating the code on the Scenario B input.  The claim (and the
spec) promise zero findings with exit code 0; the code exits 0 but emits
one spurious warning, because the asynchronous handler is an
`ast.AsyncFunctionDef` node, which the `isinstance(node, ast.FunctionDef)`
filter of every rule skips, leaving all three handler counts at zero. -/
theorem c3_scenario_b_spurious_warning :
    validate false (Except.ok scenarioB) =
      (true, [⟨"warning", none, "No tools, resources, or prompts defined",
        some "Add @mcp.tool(), @mcp.resource(), or @mcp.prompt() decorators"⟩]) ∧
    exitCode false (Except.ok scenarioB) = 0 := by
  have h : validate false (Except.ok scenarioB) =
      (true, [⟨"warning", none, "No tools, resources, or prompts defined",
        some "Add @mcp.tool(), @mcp.resource(), or @mcp.prompt() decorators"⟩]) := by
    simp only [validate, runAllChecks, check_imports, check_server_init, check_decorators,
      check_type_hints, check_async_patterns, check_context_usage, check_best_practices,
      functionDefsIn, has_await_eq_has_awaitF, walk_eq_walkF]
    decide
  exact ⟨h, by rw [exitCode, h]; decide⟩

/-- The single synchronous handler of Scenario C: decorated
`@mcp.tool()`, documented and fully annotated, whose subtree contains an
await expression (inside a nested asynchronous helper, the parseable way
an await can sit under a synchronous definition). -/
def fetchFd : FuncData :=
  ⟨4, "fetch",
   [⟨"x", some (.name "str")⟩],
   [.exprStmt (.constStr "Fetch a value."),
    .asyncFunctionDef 6 "inner" [] [.exprStmt (.awaitExpr (.call (.name "g") []))] [] none,
    .ret (some (.name "x"))],
   [.call (.attrAccess (.name "mcp") "tool") []],
   some (.name "str")⟩

/-- The Scenario C input: a well-formed server file whose one handler is
synchronous but contains an await expression in its subtree. -/
def scenarioC : List Stmt :=
  [ .importFrom 1 (some "fastmcp") ["FastMCP"],
    .assign 2 [.name "mcp"] (.call (.name "FastMCP") [.constStr "demo-server"]),
    fdStmt fetchFd,
    .ifStmt (.compare (.name "__name__") [.constStr "__main__"])
      [.exprStmt (.call (.attrAccess (.name "mcp") "run") [])] [] ]

/-- The error finding `check_async_patterns` emits for a synchronous
function whose subtree contains an await expression. -/
def awaitErrorIssue (fd : FuncData) : ValidationIssue :=
  ⟨"error", some fd.lineno,
   "Function \x27" ++ fd.name ++ "\x27 uses await but is not async",
   some ("Change to: async def " ++ fd.name ++ "(...)")⟩

/-- C6: for every handler-decorated synchronous function whose subtree
contains an await expression, the run emits the error-severity finding
naming it and the verdict is failure; and on the Scenario C input the run
yields exactly one finding, the error referencing the function by name,
and exits with code 1. -/
theorem c6_await_without_async :
    (∀ (strict : Bool) (m : List Stmt) (fd : FuncData),
      fd ∈ functionDefsIn m →
      (∃ d ∈ fd.decorators, get_decorator_name d = "mcp.tool" ∨
        get_decorator_name d = "mcp.resource" ∨ get_decorator_name d = "mcp.prompt") →
      has_await fd = true →
      awaitErrorIssue fd ∈ (validate strict (Except.ok m)).2 ∧
        (validate strict (Except.ok m)).1 = false) ∧
    (validate false (Except.ok scenarioC) = (false, [awaitErrorIssue fetchFd]) ∧
      exitCode false (Except.ok scenarioC) = 1) := by
  constructor
  · intro strict m fd hmem hdec hawait
    have hmcp : hasMcpDecorator fd = true := by
      obtain ⟨d, hd, hcase⟩ := hdec
      rw [hasMcpDecorator, List.any_eq_true]
      refine ⟨get_decorator_name d, List.mem_map_of_mem _ hd, ?_⟩
      rcases hcase with h | h | h <;> rw [h] <;> decide
    have hin : awaitErrorIssue fd ∈ check_async_patterns m := by
      rw [check_async_patterns, List.mem_flatMap]
      refine ⟨fd, hmem, ?_⟩
      simp [hmcp, hawait, add_error, awaitErrorIssue]
    have hin2 : awaitErrorIssue fd ∈ (validate strict (Except.ok m)).2 := by
      simp only [validate, runAllChecks]
      simp only [List.mem_append]
      tauto
    refine ⟨hin2, ?_⟩
    simp only [validate]
    have : (runAllChecks strict m).any (fun i => i.severity == "error") = true := by
      rw [List.any_eq_true]
      exact ⟨awaitErrorIssue fd, by simpa [validate] using hin2, by rfl⟩
    simp [this]
  · have h : validate false (Except.ok scenarioC) = (false, [awaitErrorIssue fetchFd]) := by
      simp only [validate, runAllChecks, check_imports, check_server_init, check_decorators,
        check_type_hints, check_async_patterns, check_context_usage, check_best_practices,
        functionDefsIn, has_await_eq_has_awaitF, walk_eq_walkF]
      decide
    exact ⟨h, by rw [exitCode, h]; decide⟩

/-- Witness for C6 at the Scenario C input: the quantified part of the
theorem applied to the concrete handler `fetch`. -/
theorem c6_await_without_async_witness :
    awaitErrorIssue fetchFd ∈ (validate false (Except.ok scenarioC)).2 ∧
      (validate false (Except.ok scenarioC)).1 = false := by
  have hmem : fetchFd ∈ functionDefsIn scenarioC := by
    have h : functionDefsIn scenarioC = [fetchFd] := by
      rw [functionDefsIn, walk_eq_walkF]; rfl
    rw [h]; exact List.mem_singleton.mpr rfl
  exact c6_await_without_async.1 false scenarioC fetchFd hmem
    ⟨.call (.attrAccess (.name "mcp") "tool") [], List.mem_singleton.mpr rfl,
      Or.inl (by decide)⟩
    (by rw [has_await_eq_has_awaitF]; decide)

theorem mem_add_error_eq {i : ValidationIssue} {l : Option Nat} {msg : String}
    {s : Option String} (h : i ∈ add_error l msg s) : i = ⟨"error", l, msg, s⟩ :=
  List.mem_singleton.mp h

theorem mem_add_warning_eq {i : ValidationIssue} {l : Option Nat} {msg : String}
    {s : Option String} (h : i ∈ add_warning l msg s) : i = ⟨"warning", l, msg, s⟩ :=
  List.mem_singleton.mp h

theorem mem_add_info_eq {strict : Bool} {i : ValidationIssue} {l : Option Nat}
    {msg : String} {s : Option String} (h : i ∈ add_info strict l msg s) :
    i = ⟨"info", l, msg, s⟩ ∧ strict = true := by
  rw [add_info] at h
  split at h
  · exact ⟨List.mem_singleton.mp h, by assumption⟩
  · exact absurd h (List.not_mem_nil _)

theorem line_of_mem_check_tool {fd : FuncData} {i : ValidationIssue}
    (h : i ∈ check_tool_function fd) : i.line = some fd.lineno := by
  rw [check_tool_function] at h
  split at h
  · rw [mem_add_warning_eq h]
  · exact absurd h (List.not_mem_nil _)

theorem line_of_mem_resourceDecoratorIssues {fd : FuncData} {d : Expr} {i : ValidationIssue}
    (h : i ∈ resourceDecoratorIssues fd d) : i.line = some fd.lineno := by
  cases d <;> try exact absurd h (List.not_mem_nil _)
  case call f args =>
    cases f <;> try exact absurd h (List.not_mem_nil _)
    case attrAccess v a =>
      simp only [resourceDecoratorIssues] at h
      split at h
      · split at h
        · rw [mem_add_error_eq h]
        · exact absurd h (List.not_mem_nil _)
      · exact absurd h (List.not_mem_nil _)

theorem line_of_mem_check_resource {fd : FuncData} {i : ValidationIssue}
    (h : i ∈ check_resource_function fd) : i.line = some fd.lineno := by
  rw [check_resource_function, List.mem_flatMap] at h
  obtain ⟨d, _, hd⟩ := h
  exact line_of_mem_resourceDecoratorIssues hd

theorem line_of_mem_check_prompt {fd : FuncData} {i : ValidationIssue}
    (h : i ∈ check_prompt_function fd) : i.line = some fd.lineno := by
  rw [check_prompt_function] at h
  rcases hr : fd.returns with _ | r <;> rw [hr] at h
  · exact absurd h (List.not_mem_nil _)
  · split at h
    · split at h
      · rw [mem_add_warning_eq h]
      · exact absurd h (List.not_mem_nil _)
    · exact absurd h (List.not_mem_nil _)

/-- The file-level warning of the decorator inventory when all three
handler counts are zero. -/
def noHandlersWarning : ValidationIssue :=
  ⟨"warning", none, "No tools, resources, or prompts defined",
   some "Add @mcp.tool(), @mcp.resource(), or @mcp.prompt() decorators"⟩

/-- A module whose single function carries the bare decorator `my_tool`:
its resolved name contains the category word `tool` as a substring. -/
def c5Module : List Stmt :=
  [ .functionDef 1 "helper" [] [.pass] [.name "my_tool"] none ]

/-- C5 counterexample: the resolved decorator name `my_tool` contains the
substring `tool`, yet the inventory counts no tool handler and emits the
no-handlers warning, because the source tests list membership of the
exact string `mcp.tool` in the resolved-name list, not substring
containment. -/
theorem c5_counterexample :
    strContains (get_decorator_name (Expr.name "my_tool")) "tool" = true ∧
    check_decorators false c5Module = [noHandlersWarning] := by
  constructor
  · decide
  · simp only [check_decorators, functionDefsIn, walk_eq_walkF]
    decide

/-- C5 amended: the inventory classifies a function into a category by
exact equality of a resolved decorator name with `mcp.tool`,
`mcp.resource` or `mcp.prompt` (resolution handling bare names, attribute
access, and calls unwrapped to their callee): the no-handlers warning
appears exactly when no function in the walk has any decorator resolving
to one of those three strings, regardless of strict mode. -/
theorem c5_classification_is_exact_equality (strict : Bool) (m : List Stmt) :
    noHandlersWarning ∈ check_decorators strict m ↔
      ∀ fd ∈ functionDefsIn m, ∀ d ∈ fd.decorators,
        get_decorator_name d ≠ "mcp.tool" ∧ get_decorator_name d ≠ "mcp.resource" ∧
          get_decorator_name d ≠ "mcp.prompt" := by
  have hcount : ∀ (s : String),
      ((functionDefsIn m).countP fun fd =>
        (fd.decorators.map get_decorator_name).contains s) = 0 ↔
      ∀ fd ∈ functionDefsIn m, ∀ d ∈ fd.decorators, get_decorator_name d ≠ s := by
    intro s
    rw [List.countP_eq_zero]
    constructor
    · intro h fd hfd d hd heq
      refine h fd hfd ?_
      rw [List.contains_eq_any_beq, List.any_eq_true]
      exact ⟨get_decorator_name d, List.mem_map_of_mem _ hd, by rw [heq]; exact beq_self_eq_true s⟩
    · intro h fd hfd hc
      rw [List.contains_eq_any_beq, List.any_eq_true] at hc
      obtain ⟨x, hx, hbeq⟩ := hc
      obtain ⟨d, hd, rfl⟩ := List.mem_map.mp hx
      exact h fd hfd d hd (eq_of_beq hbeq).symm
  have hnp : ∀ fd ∈ functionDefsIn m, noHandlersWarning ∉
      ((if (fd.decorators.map get_decorator_name).contains "mcp.tool" then
          check_tool_function fd else []) ++
        (if (fd.decorators.map get_decorator_name).contains "mcp.resource" then
          check_resource_function fd else []) ++
        (if (fd.decorators.map get_decorator_name).contains "mcp.prompt" then
          check_prompt_function fd else [])) := by
    intro fd _ hmem
    rcases List.mem_append.mp hmem with h12 | h3
    · rcases List.mem_append.mp h12 with h1 | h2
      · split at h1
        · have := line_of_mem_check_tool h1
          simp [noHandlersWarning] at this
        · exact absurd h1 (List.not_mem_nil _)
      · split at h2
        · have := line_of_mem_check_resource h2
          simp [noHandlersWarning] at this
        · exact absurd h2 (List.not_mem_nil _)
    · split at h3
      · have := line_of_mem_check_prompt h3
        simp [noHandlersWarning] at this
      · exact absurd h3 (List.not_mem_nil _)
  simp only [check_decorators]
  rw [List.mem_append]
  by_cases hc : ((((functionDefsIn m).countP fun fd =>
        (fd.decorators.map get_decorator_name).contains "mcp.tool") == 0) &&
      (((functionDefsIn m).countP fun fd =>
        (fd.decorators.map get_decorator_name).contains "mcp.resource") == 0) &&
      (((functionDefsIn m).countP fun fd =>
        (fd.decorators.map get_decorator_name).contains "mcp.prompt") == 0)) = true
  · rw [if_pos hc]
    rw [Bool.and_eq_true, Bool.and_eq_true] at hc
    obtain ⟨⟨ht, hr⟩, hp⟩ := hc
    rw [beq_iff_eq] at ht hr hp
    constructor
    · intro _ fd hfd d hd
      exact ⟨(hcount "mcp.tool").mp ht fd hfd d hd,
        (hcount "mcp.resource").mp hr fd hfd d hd,
        (hcount "mcp.prompt").mp hp fd hfd d hd⟩
    · intro _
      exact Or.inr (List.mem_singleton.mpr rfl)
  · rw [if_neg hc]
    constructor
    · rintro (hper | htail)
      · obtain ⟨fd, hfd, hi⟩ := List.mem_flatMap.mp hper
        exact absurd hi (hnp fd hfd)
      · exfalso
        have := (mem_add_info_eq htail).1
        simp [noHandlersWarning] at this
    · intro hall
      exfalso
      refine hc ?_
      rw [Bool.and_eq_true, Bool.and_eq_true]
      refine ⟨⟨?_, ?_⟩, ?_⟩ <;> rw [beq_iff_eq] <;> rw [hcount]
      · intro fd hfd d hd
        exact (hall fd hfd d hd).1
      · intro fd hfd d hd
        exact (hall fd hfd d hd).2.1
      · intro fd hfd d hd
        exact (hall fd hfd d hd).2.2

/-- The strict-mode-only info finding for a missing entry-point guard. -/
def mainBlockInfoIssue : ValidationIssue :=
  ⟨"info", none, "Missing if __name__ == \x27__main__\x27 block",
   some "Add: if __name__ == \x27__main__\x27: mcp.run()"⟩

/-- A module whose only conditional is top level and compares `__name__`
to a value other than the main sentinel. -/
def c9TopLevelOther : List Stmt :=
  [ .ifStmt (.compare (.name "__name__") [.constStr "not_main"]) [.pass] [] ]

/-- A module whose only conditional compares `__name__` to the main
sentinel but sits nested inside a function body, not at top level. -/
def c9NestedGuard : List Stmt :=
  [ .functionDef 1 "f" []
      [.ifStmt (.compare (.name "__name__") [.constStr "__main__"]) [.pass] []] [] none ]

/-- C9 counterexample: in strict mode, the claim predicts the info
finding for both modules (no top-level conditional comparing `__name__`
to the main-sentinel literal exists in either), yet the code emits
nothing for either: it accepts a comparison to any value and finds
conditionals at any nesting depth. -/
theorem c9_counterexample :
    check_best_practices true c9TopLevelOther = [] ∧
    check_best_practices true c9NestedGuard = [] := by
  constructor <;> (simp only [check_best_practices, walk_eq_walkF]; decide)

/-- C9 amended: the info finding appears (strict mode only) exactly when
no conditional anywhere in the walked tree, top level or nested, has a
comparison test with the bare name `__name__` as left operand; the
compared value is never examined. -/
theorem c9_guard_detection (strict : Bool) (m : List Stmt) :
    mainBlockInfoIssue ∈ check_best_practices strict m ↔
      (strict = true ∧ ∀ n ∈ walk m, isMainBlockIf n = false) := by
  rw [check_best_practices]
  by_cases hany : (walk m).any isMainBlockIf = true
  · have hcond : ¬((!(walk m).any isMainBlockIf) = true) := by
      rw [hany]; decide
    rw [if_neg hcond]
    rw [List.any_eq_true] at hany
    obtain ⟨n, hn, hmain⟩ := hany
    constructor
    · intro h
      exact absurd h (List.not_mem_nil _)
    · rintro ⟨-, hall2⟩
      exfalso
      rw [hall2 n hn] at hmain
      exact Bool.false_ne_true hmain
  · have hcond : (!(walk m).any isMainBlockIf) = true := by
      rw [Bool.not_eq_true] at hany
      rw [hany]; decide
    rw [if_pos hcond]
    rw [Bool.not_eq_true, List.any_eq_false] at hany
    have hall : ∀ n ∈ walk m, isMainBlockIf n = false := by
      intro n hn
      have := hany n hn
      revert this
      cases isMainBlockIf n <;> simp
    cases strict with
    | false =>
        rw [add_info, if_neg (by decide : ¬((false : Bool) = true))]
        constructor
        · intro h
          exact absurd h (List.not_mem_nil _)
        · rintro ⟨h, -⟩
          exact absurd h (by decide)
    | true =>
        rw [add_info, if_pos rfl, List.mem_singleton]
        constructor
        · intro _
          exact ⟨rfl, hall⟩
        · intro _
          rfl

/-- The findings kept outside strict mode: everything that is not
info-severity. -/
def notInfo (i : ValidationIssue) : Bool := !(i.severity == "info")

theorem filter_notInfo_flatMap {α : Type} (l : List α) (f : α → List ValidationIssue)
    (h : ∀ a, (f a).filter notInfo = f a) :
    (l.flatMap f).filter notInfo = l.flatMap f := by
  induction l with
  | nil => simp
  | cons a t ih => simp only [List.flatMap_cons, List.filter_append, h a, ih]

theorem filter_notInfo_add_error (l : Option Nat) (msg : String) (s : Option String) :
    (add_error l msg s).filter notInfo = add_error l msg s := by
  simp [add_error, notInfo]

theorem filter_notInfo_add_warning (l : Option Nat) (msg : String) (s : Option String) :
    (add_warning l msg s).filter notInfo = add_warning l msg s := by
  simp [add_warning, notInfo]

theorem filter_notInfo_check_tool (fd : FuncData) :
    (check_tool_function fd).filter notInfo = check_tool_function fd := by
  rw [check_tool_function]
  split
  · exact filter_notInfo_add_warning _ _ _
  · simp

theorem filter_notInfo_check_resource (fd : FuncData) :
    (check_resource_function fd).filter notInfo = check_resource_function fd := by
  rw [check_resource_function]
  apply filter_notInfo_flatMap
  intro d
  cases d <;> try rfl
  case call f args =>
    cases f <;> try rfl
    case attrAccess v a =>
      simp only [resourceDecoratorIssues]
      split
      · split
        · exact filter_notInfo_add_error _ _ _
        · rfl
      · rfl

theorem filter_notInfo_check_prompt (fd : FuncData) :
    (check_prompt_function fd).filter notInfo = check_prompt_function fd := by
  rw [check_prompt_function]
  split
  · split
    · exact filter_notInfo_add_warning _ _ _
    · simp
  · simp

theorem filter_notInfo_check_imports (m : List Stmt) :
    (check_imports m).filter notInfo = check_imports m := by
  simp only [check_imports]
  rw [List.filter_append]
  congr 1
  · apply filter_notInfo_flatMap
    intro a
    dsimp only
    split
    · split
      · simp
      · exact filter_notInfo_add_warning _ _ _
    · simp
  · split
    · simp
    · exact filter_notInfo_add_error _ _ _

theorem filter_notInfo_check_server_init (m : List Stmt) :
    (check_server_init m).filter notInfo = check_server_init m := by
  simp only [check_server_init]
  rw [List.filter_append]
  congr 1
  · apply filter_notInfo_flatMap
    intro a
    dsimp only
    split
    · exact filter_notInfo_add_error _ _ _
    · simp
  · split
    · exact filter_notInfo_add_error _ _ _
    · simp

theorem filter_notInfo_check_type_hints (m : List Stmt) :
    (check_type_hints m).filter notInfo = check_type_hints m := by
  rw [check_type_hints]
  apply filter_notInfo_flatMap
  intro fd
  dsimp only
  split
  · simp
  · split
    · simp
    · rw [List.filter_append]
      congr 1
      · apply filter_notInfo_flatMap
        intro a
        dsimp only
        split
        · simp
        · split
          · exact filter_notInfo_add_warning _ _ _
          · simp
      · split
        · exact filter_notInfo_add_warning _ _ _
        · simp

theorem filter_notInfo_check_async (m : List Stmt) :
    (check_async_patterns m).filter notInfo = check_async_patterns m := by
  rw [check_async_patterns]
  apply filter_notInfo_flatMap
  intro fd
  dsimp only
  split
  · simp
  · split
    · exact filter_notInfo_add_error _ _ _
    · simp

theorem filter_notInfo_check_context (m : List Stmt) :
    (check_context_usage m).filter notInfo = check_context_usage m := by
  rw [check_context_usage]
  apply filter_notInfo_flatMap
  intro fd
  dsimp only
  split
  · simp
  · rw [List.filter_append]
    congr 1
    · split
      · exact filter_notInfo_add_error _ _ _
      · simp
    · split
      · exact filter_notInfo_add_warning _ _ _
      · simp

theorem check_decorators_false_eq_filter (m : List Stmt) :
    check_decorators false m = (check_decorators true m).filter notInfo := by
  simp only [check_decorators]
  rw [List.filter_append]
  congr 1
  · symm
    apply filter_notInfo_flatMap
    intro fd
    dsimp only
    rw [List.filter_append, List.filter_append]
    congr 1
    · congr 1
      · split
        · exact filter_notInfo_check_tool _
        · simp
      · split
        · exact filter_notInfo_check_resource _
        · simp
    · split
      · exact filter_notInfo_check_prompt _
      · simp
  · split
    · exact (filter_notInfo_add_warning _ _ _).symm
    · simp [add_info, notInfo]

theorem check_best_practices_false_eq_filter (m : List Stmt) :
    check_best_practices false m = (check_best_practices true m).filter notInfo := by
  rw [check_best_practices, check_best_practices]
  split
  · simp [add_info, notInfo]
  · rfl

/-- C7: for every parse outcome, the ordered finding list without the
strict flag is the strict-flag finding list with exactly its
info-severity elements removed: strict mode only adds info findings, in
place, and non-strict mode never materializes an info finding at all. -/
theorem c7_strict_monotonicity (input : Except SyntaxErr (List Stmt)) :
    (validate false input).2 = ((validate true input).2).filter notInfo ∧
    ∀ i ∈ (validate false input).2, notInfo i = true := by
  have hmain : (validate false input).2 = ((validate true input).2).filter notInfo := by
    cases input with
    | error e => simp [validate, add_error, notInfo]
    | ok m =>
        simp only [validate, runAllChecks]
        rw [List.filter_append, List.filter_append, List.filter_append, List.filter_append,
          List.filter_append, List.filter_append]
        rw [filter_notInfo_check_imports, filter_notInfo_check_server_init,
          filter_notInfo_check_type_hints, filter_notInfo_check_async,
          filter_notInfo_check_context]
        rw [← check_decorators_false_eq_filter, ← check_best_practices_false_eq_filter]
  refine ⟨hmain, ?_⟩
  intro i hi
  rw [hmain] at hi
  exact (List.mem_filter.mp hi).2

/-- The error finding of the context check for an untyped context
parameter. -/
def ctxErrorIssue (fd : FuncData) : ValidationIssue :=
  ⟨"error", some fd.lineno,
   "Context parameter in \x27" ++ fd.name ++ "\x27 missing type hint",
   some "Add type hint: ctx: Context"⟩

/-- The warning finding of the context check for a context parameter on a
non-asynchronous function. -/
def ctxWarningIssue (fd : FuncData) : ValidationIssue :=
  ⟨"warning", some fd.lineno,
   "Function \x27" ++ fd.name ++ "\x27 has Context parameter but is not async",
   some "Context methods are async - make function async"⟩

/-- C8: for every handler-decorated (synchronous) function with a
parameter named exactly `ctx` or `context`, the run emits the
error-severity finding when no such parameter carries an annotation
mentioning the framework context type, and separately emits the
warning-severity finding because the enclosing function is not declared
asynchronous (asynchronous definitions never reach this rule). -/
theorem c8_context_parameter (strict : Bool) (m : List Stmt) (fd : FuncData)
    (hmem : fd ∈ functionDefsIn m)
    (hdec : ∃ d ∈ fd.decorators, get_decorator_name d = "mcp.tool" ∨
      get_decorator_name d = "mcp.resource" ∨ get_decorator_name d = "mcp.prompt") :
    (hasContextParam fd = true → contextHasTypeHint fd = false →
      ctxErrorIssue fd ∈ (validate strict (Except.ok m)).2) ∧
    (hasContextParam fd = true →
      ctxWarningIssue fd ∈ (validate strict (Except.ok m)).2) := by
  have hmcp : hasMcpDecorator fd = true := by
    obtain ⟨d, hd, hcase⟩ := hdec
    rw [hasMcpDecorator, List.any_eq_true]
    refine ⟨get_decorator_name d, List.mem_map_of_mem _ hd, ?_⟩
    rcases hcase with h | h | h <;> rw [h] <;> decide
  have hlift : ∀ i, i ∈ check_context_usage m → i ∈ (validate strict (Except.ok m)).2 := by
    intro i hi
    simp only [validate, runAllChecks]
    simp only [List.mem_append]
    tauto
  constructor
  · intro hctx hhint
    apply hlift
    rw [check_context_usage, List.mem_flatMap]
    refine ⟨fd, hmem, ?_⟩
    dsimp only
    rw [if_neg (by rw [hmcp]; decide)]
    refine List.mem_append.mpr (Or.inl ?_)
    rw [if_pos (by rw [hctx, hhint]; decide)]
    exact List.mem_singleton.mpr rfl
  · intro hctx
    apply hlift
    rw [check_context_usage, List.mem_flatMap]
    refine ⟨fd, hmem, ?_⟩
    dsimp only
    rw [if_neg (by rw [hmcp]; decide)]
    refine List.mem_append.mpr (Or.inr ?_)
    rw [if_pos hctx]
    exact List.mem_singleton.mpr rfl

/-- A handler with an unannotated parameter named `ctx`. -/
def ctxFd : FuncData :=
  ⟨2, "use_ctx", [⟨"ctx", none⟩],
   [.exprStmt (.constStr "Use the context."), .ret (some (.constStr "ok"))],
   [.call (.attrAccess (.name "mcp") "tool") []], some (.name "str")⟩

/-- The module holding just that handler. -/
def ctxModule : List Stmt := [fdStmt ctxFd]

/-- Witness for C8: both context findings appear for the concrete
handler `use_ctx`. -/
theorem c8_context_parameter_witness :
    ctxErrorIssue ctxFd ∈ (validate false (Except.ok ctxModule)).2 ∧
    ctxWarningIssue ctxFd ∈ (validate false (Except.ok ctxModule)).2 := by
  have hmem : ctxFd ∈ functionDefsIn ctxModule := by
    have h : functionDefsIn ctxModule = [ctxFd] := by
      rw [functionDefsIn, walk_eq_walkF]; rfl
    rw [h]; exact List.mem_singleton.mpr rfl
  have h8 := c8_context_parameter false ctxModule ctxFd hmem
    ⟨.call (.attrAccess (.name "mcp") "tool") [], List.mem_singleton.mpr rfl,
      Or.inl (by decide)⟩
  exact ⟨h8.1 (by decide) (by decide), h8.2 (by decide)⟩

/-- C10: an asynchronous function definition (whose subtree contains no
synchronous definition) is never inspected by any function rule: it is
not counted in the tool/resource/prompt inventory (the no-handlers
warning fires and with it none of the docstring, resource-URI or
prompt-return-type sub-checks), and the type-hint, async/await and
context-parameter checks emit nothing, whatever its name, parameters,
body, decorators or return annotation. -/
theorem c10_async_defs_never_inspected (strict : Bool) (L : Nat) (nm : String)
    (args : List Arg) (body : List Stmt) (dec : List Expr) (rets : Option Expr)
    (h : (walkAux [Node.ofStmt (Stmt.asyncFunctionDef L nm args body dec rets)]).all
        (fun n => !(funcDefOf n).isSome) = true) :
    functionDefsIn [Stmt.asyncFunctionDef L nm args body dec rets] = [] ∧
    check_decorators strict [Stmt.asyncFunctionDef L nm args body dec rets] =
      [noHandlersWarning] ∧
    check_type_hints [Stmt.asyncFunctionDef L nm args body dec rets] = [] ∧
    check_async_patterns [Stmt.asyncFunctionDef L nm args body dec rets] = [] ∧
    check_context_usage [Stmt.asyncFunctionDef L nm args body dec rets] = [] := by
  have hfds : functionDefsIn [Stmt.asyncFunctionDef L nm args body dec rets] = [] := by
    rw [functionDefsIn]
    rw [List.filterMap_eq_nil_iff]
    intro n hn
    rw [List.all_eq_true] at h
    have h2 := h n (by simpa [walk] using hn)
    cases hopt : funcDefOf n with
    | none => rfl
    | some fd => rw [hopt] at h2; simp at h2
  refine ⟨hfds, ?_, ?_, ?_, ?_⟩
  · simp [check_decorators, hfds, noHandlersWarning, add_warning]
  · simp [check_type_hints, hfds]
  · simp [check_async_patterns, hfds]
  · simp [check_context_usage, hfds]

/-- A maximally rule-triggering asynchronous definition: decorated
`@mcp.tool()`, an unannotated `ctx` parameter, no docstring, an await in
the body, no return annotation. -/
def asyncProbeStmt : Stmt :=
  .asyncFunctionDef 3 "probe" [⟨"ctx", none⟩]
    [.exprStmt (.awaitExpr (.call (.name "g") []))]
    [.call (.attrAccess (.name "mcp") "tool") []] none

/-- Witness for C10 at the concrete asynchronous definition. -/
theorem c10_async_defs_never_inspected_witness :
    functionDefsIn [asyncProbeStmt] = [] ∧
    check_decorators false [asyncProbeStmt] = [noHandlersWarning] ∧
    check_type_hints [asyncProbeStmt] = [] ∧
    check_async_patterns [asyncProbeStmt] = [] ∧
    check_context_usage [asyncProbeStmt] = [] :=
  c10_async_defs_never_inspected false 3 "probe" [⟨"ctx", none⟩]
    [.exprStmt (.awaitExpr (.call (.name "g") []))]
    [.call (.attrAccess (.name "mcp") "tool") []] none
    (by rw [walkAux_eq_fuel _ _ (Nat.le_refl _)]; decide)

end FastMCP
